import Mathlib

/-
Shallow embedding of the Expense Tracker program (expensetracker.py).

The program keeps an in-memory list of expense records (dicts with keys
Date, Description, Category, Amount), persists it as JSON in a text file,
and offers interactive add / remove / view / monthly-summary operations.

Modelling choices:
- Python str values are Lean String; Python float amounts are modelled as
  exact rationals (the float(...) parser below covers finite decimal and
  scientific literals; IEEE special values are outside the model).
- The interactive input stream is a List String of successive answers;
  running out of inputs models EOF (the raised EOFError propagates, and
  the functions below return the in-memory ledger at that point).
- Loops are given explicit fuel; every claim is either stated for all fuel
  or evaluated with enough fuel for the concrete inputs in question.
- The backing file is a FileState: missing, undecodable (not JSON),
  an unrelated I/O error, or a decoded JSON value. json.load / json.dump
  are modelled up to JSON text formatting, which the spec itself treats
  as irrelevant (only logical content matters).
-/

namespace ExpenseTracker

/- ---------- Python string primitives ---------- -/

/-- ASCII whitespace stripped by str.strip(). -/
def isPySpace (c : Char) : Bool :=
  c = ' ' ∨ c = '\t' ∨ c = '\n' ∨ c = '\r' ∨ c = '\x0b' ∨ c = '\x0c'

/-- str.strip(): drop whitespace from both ends. -/
def pyStrip (s : String) : String :=
  String.mk (((s.data.dropWhile isPySpace).reverse.dropWhile isPySpace).reverse)

/-- str.lower() (ASCII). -/
def pyLower (s : String) : String :=
  String.mk (s.data.map Char.toLower)

/-- str.capitalize(): first character uppercased, the rest lowercased. -/
def pyCapitalize (s : String) : String :=
  match s.data with
  | [] => ""
  | c :: cs => String.mk (c.toUpper :: cs.map Char.toLower)

/- ---------- Numeric parsing (int(...) and float(...)) ---------- -/

def isDigitC (c : Char) : Bool := '0' ≤ c ∧ c ≤ '9'

/-- Digit list to number, most significant first. -/
def digitsToNat (cs : List Char) : Nat :=
  cs.foldl (fun n c => 10 * n + (c.toNat - 48)) 0

/-- The character for a single digit. -/
def digitChar (n : Nat) : Char := Char.ofNat (48 + n)

/-- Optional leading sign; returns (isNegative, remaining characters). -/
def parseSignChars : List Char → Bool × List Char
  | '+' :: rest => (false, rest)
  | '-' :: rest => (true, rest)
  | cs => (false, cs)

/-- int(s) on an already-stripped string: optional sign then digits. -/
def pyParseInt (s : String) : Option Int :=
  let p := parseSignChars s.data
  if p.2 ≠ [] ∧ p.2.all isDigitC then
    some (if p.1 then -(digitsToNat p.2 : Int) else (digitsToNat p.2 : Int))
  else none

/-- float(s) on an already-stripped string: sign, decimal mantissa,
optional exponent. Finite decimal literals only. -/
def pyParseFloat (s : String) : Option ℚ :=
  let p := parseSignChars s.data
  let ipSplit := p.2.span isDigitC
  let mantRest : Option ℚ × List Char :=
    match ipSplit.2 with
    | '.' :: rest2 =>
      let fpSplit := rest2.span isDigitC
      (if ipSplit.1 = [] ∧ fpSplit.1 = [] then none
       else some ((digitsToNat ipSplit.1 : ℚ) +
                  (digitsToNat fpSplit.1 : ℚ) / (10 : ℚ) ^ fpSplit.1.length),
       fpSplit.2)
    | _ => (if ipSplit.1 = [] then none else some ((digitsToNat ipSplit.1 : ℚ)), ipSplit.2)
  match mantRest.1 with
  | none => none
  | some m =>
    let signed := if p.1 then -m else m
    match mantRest.2 with
    | [] => some signed
    | c :: rest2 =>
      if c = 'e' ∨ c = 'E' then
        let ep := parseSignChars rest2
        let dsSplit := ep.1 |> fun _ => ep.2.span isDigitC
        if dsSplit.1 ≠ [] ∧ dsSplit.2 = [] then
          let e : ℤ := if ep.1 then -(digitsToNat dsSplit.1 : ℤ) else (digitsToNat dsSplit.1 : ℤ)
          some (signed * (10 : ℚ) ^ e)
        else none
      else none

/- ---------- Dates (strptime "%d-%m-%Y" / strftime) ---------- -/

structure Date where
  day : Nat
  month : Nat
  year : Nat
deriving DecidableEq

def isLeap (y : Nat) : Bool := y % 4 = 0 ∧ (y % 100 ≠ 0 ∨ y % 400 = 0)

def daysInMonth (m y : Nat) : Nat :=
  if m = 2 then (if isLeap y then 29 else 28)
  else if m = 4 ∨ m = 6 ∨ m = 9 ∨ m = 11 then 30
  else 31

/-- Dates that datetime.now() can produce (modern four-digit years). -/
def validDate (dt : Date) : Bool :=
  1 ≤ dt.month ∧ dt.month ≤ 12 ∧ 1 ≤ dt.day ∧ dt.day ≤ daysInMonth dt.month dt.year ∧
  1000 ≤ dt.year ∧ dt.year ≤ 9999

/-- Zero-padded two-digit field (strftime "%d", "%m"). -/
def twoDigitsL (n : Nat) : List Char := [digitChar (n / 10), digitChar (n % 10)]

/-- Four-digit year field (strftime "%Y"). -/
def fourDigitsL (n : Nat) : List Char :=
  [digitChar (n / 1000), digitChar (n / 100 % 10), digitChar (n / 10 % 10), digitChar (n % 10)]

/-- datetime.strftime("%d-%m-%Y"). -/
def formatDate (dt : Date) : String :=
  String.mk (twoDigitsL dt.day ++ '-' :: twoDigitsL dt.month ++ '-' :: fourDigitsL dt.year)

/-- Split a character list on a separator character. -/
def splitOnChar (sep : Char) : List Char → List (List Char)
  | [] => [[]]
  | c :: cs =>
    if c = sep then [] :: splitOnChar sep cs
    else
      match splitOnChar sep cs with
      | [] => [[c]]
      | g :: gs => (c :: g) :: gs

/-- strptime day/month field: one or two digits, value in 1..hi. -/
def parseNumField (cs : List Char) (hi : Nat) : Option Nat :=
  if cs.all isDigitC ∧ (cs.length = 1 ∨ cs.length = 2) then
    if 1 ≤ digitsToNat cs ∧ digitsToNat cs ≤ hi then some (digitsToNat cs) else none
  else none

/-- strptime "%Y" field: exactly four digits, year at least 1. -/
def parseYearField (cs : List Char) : Option Nat :=
  if cs.all isDigitC ∧ cs.length = 4 then
    if 1 ≤ digitsToNat cs then some (digitsToNat cs) else none
  else none

/-- datetime.strptime(s, "%d-%m-%Y"), including the day-of-month check. -/
def parseDate (s : String) : Option Date :=
  match splitOnChar '-' s.data with
  | [ds, ms, ys] =>
    match parseNumField ds 31, parseNumField ms 12, parseYearField ys with
    | some d, some m, some y =>
      if d ≤ daysInMonth m y then some ⟨d, m, y⟩ else none
    | _, _, _ => none
  | _ => none

/-- strptime(date, "%d-%m-%Y").strftime("%m-%Y"): the month key used by
monthly_summary; none when strptime raises ValueError. -/
def monthKey (s : String) : Option String :=
  match parseDate s with
  | none => none
  | some dt => some (String.mk (twoDigitsL dt.month ++ '-' :: fourDigitsL dt.year))

/- ---------- Records and the ledger ---------- -/

/-- One expense dict: keys Date, Description, Category, Amount. -/
structure ExpenseRecord where
  Date : String
  Description : String
  Category : String
  Amount : ℚ
deriving DecidableEq

abbrev Ledger := List ExpenseRecord

/-- The ledger invariant for a single record, from the data model. -/
def validRecord (r : ExpenseRecord) : Bool :=
  decide (0 ≤ r.Amount) && (r.Description ≠ "" : Bool) && (r.Category ≠ "" : Bool) &&
  (parseDate r.Date).isSome

/-- A well-formed ledger: every record satisfies the invariant. -/
def wfLedger (L : Ledger) : Bool := L.all validRecord

/- ---------- JSON values and the backing file ---------- -/

/-- JSON values, as produced by json.load. -/
inductive Json where
  | jnull
  | jbool (b : Bool)
  | jnum (q : ℚ)
  | jstr (s : String)
  | jarr (xs : List Json)
  | jobj (fields : List (String × Json))

/-- json.dump of one expense dict: the four keys in insertion order. -/
def encodeRecord (r : ExpenseRecord) : Json :=
  .jobj [("Date", .jstr r.Date), ("Description", .jstr r.Description),
         ("Category", .jstr r.Category), ("Amount", .jnum r.Amount)]

/-- json.dump of the whole ledger: a JSON array of record objects. -/
def encodeLedger (L : Ledger) : Json := .jarr (L.map encodeRecord)

/-- Reading one expense record back from its canonical JSON object. -/
def decodeRecord : Json → Option ExpenseRecord
  | .jobj [("Date", .jstr d), ("Description", .jstr de),
           ("Category", .jstr c), ("Amount", .jnum a)] => some ⟨d, de, c, a⟩
  | _ => none

def decodeRecords : List Json → Option Ledger
  | [] => some []
  | j :: js =>
    match decodeRecord j, decodeRecords js with
    | some r, some rs => some (r :: rs)
    | _, _ => none

/-- Reading a ledger back from a JSON value (a JSON array of records). -/
def decodeLedger : Json → Option Ledger
  | .jarr xs => decodeRecords xs
  | _ => none

/-- The state of the backing file expenses.txt. -/
inductive FileState where
  | missing
  | undecodable
  | ioError
  | holds (v : Json)

/-- load_expenses: json.load of the file; FileNotFoundError and
JSONDecodeError are caught and give an empty list; any other failure
propagates. Note that a decoded JSON value is stored unvalidated. -/
def loadExpenses : FileState → Except Unit Json
  | .missing => .ok (.jarr [])
  | .undecodable => .ok (.jarr [])
  | .ioError => .error ()
  | .holds v => .ok v

/-- save_expenses: whole-file rewrite with the JSON encoding of the ledger. -/
def saveExpenses (L : Ledger) : FileState := .holds (encodeLedger L)

/- ---------- add_expense ---------- -/

/-- The description / category re-ask loop: plain input(), kept verbatim,
repeated while the answer is the empty string. -/
def askFieldAgain : List String → Option (String × List String)
  | [] => none
  | s :: rest => if s = "" then askFieldAgain rest else some (s, rest)

/-- First prompt for description / category: input().strip().capitalize(),
falling into the re-ask loop when the processed text is empty. -/
def askField : List String → Option (String × List String)
  | [] => none
  | s :: rest =>
    if pyCapitalize (pyStrip s) = "" then askFieldAgain rest
    else some (pyCapitalize (pyStrip s), rest)

inductive AmountResult where
  | ok (a : ℚ) (rest : List String)
  | invalid (rest : List String)
  | eof
deriving DecidableEq

/-- The amount loop: float(input().strip()); a ValueError escapes to the
outer handler (invalid), a negative value re-asks, otherwise accept. -/
def askAmount : List String → AmountResult
  | [] => .eof
  | s :: rest =>
    match pyParseFloat (pyStrip s) with
    | none => .invalid rest
    | some a => if a < 0 then askAmount rest else .ok a rest

/-- ask_again: input().lower().strip() until the answer is yes or no. -/
def askAgain : List String → Option (String × List String)
  | [] => none
  | s :: rest =>
    if pyStrip (pyLower s) = "yes" ∨ pyStrip (pyLower s) = "no" then
      some (pyStrip (pyLower s), rest)
    else askAgain rest

inductive IterResult where
  | appended (r : ExpenseRecord) (rest : List String)
  | invalid (rest : List String)
  | eof
deriving DecidableEq

/-- One pass of the add_expense body: date from now(), description,
category, amount, then the record dict. -/
def addIteration (today : Date) (inputs : List String) : IterResult :=
  match askField inputs with
  | none => .eof
  | some (desc, rest1) =>
    match askField rest1 with
    | none => .eof
    | some (cat, rest2) =>
      match askAmount rest2 with
      | .eof => .eof
      | .invalid rest3 => .invalid rest3
      | .ok a rest3 => .appended ⟨formatDate today, desc, cat, a⟩ rest3

/-- The full add_expense while-True loop, returning the in-memory ledger
when the call ends (answer no, EOF, or fuel out). -/
def addLoop (fuel : Nat) (today : Date) (L : Ledger) (inputs : List String) : Ledger :=
  match fuel with
  | 0 => L
  | f + 1 =>
    match addIteration today inputs with
    | .eof => L
    | .invalid rest => addLoop f today L rest
    | .appended r rest =>
      match askAgain rest with
      | none => L ++ [r]
      | some (ans, rest2) =>
        if ans = "yes" then addLoop f today (L ++ [r]) rest2 else L ++ [r]

/- ---------- remove_expense ---------- -/

/-- The validation and pop of remove_expense: reject when
remove <= 0 or remove > len(expenses), else pop(remove - 1). -/
def removeAt (L : Ledger) (pos : Int) : Option Ledger :=
  if pos ≤ 0 ∨ (L.length : Int) < pos then none
  else some (L.eraseIdx (pos - 1).toNat)

/-- The full remove_expense while-True loop, returning the in-memory
ledger when the call ends. -/
def removeLoop (fuel : Nat) (L : Ledger) (inputs : List String) : Ledger :=
  match fuel with
  | 0 => L
  | f + 1 =>
    match inputs with
    | [] => L
    | s :: rest =>
      match pyParseInt (pyStrip s) with
      | none => removeLoop f L rest
      | some pos =>
        match removeAt L pos with
        | none => removeLoop f L rest
        | some L2 =>
          match askAgain rest with
          | none => L2
          | some (ans, rest2) =>
            if ans = "yes" then removeLoop f L2 rest2 else L2

/- ---------- monthly_summary ---------- -/

/-- monthly_totals[month] = monthly_totals.get(month, 0) + amount on an
insertion-ordered dict: update in place, or append a new key at the end. -/
def updateTotals : List (String × ℚ) → String → ℚ → List (String × ℚ)
  | [], k, a => [(k, a)]
  | (k2, v) :: rest, k, a =>
    if k2 = k then (k2, v + a) :: rest else (k2, v) :: updateTotals rest k a

/-- The grouping loop of monthly_summary; none models the uncaught
ValueError when some Date does not parse. -/
def foldTotals (acc : List (String × ℚ)) : Ledger → Option (List (String × ℚ))
  | [] => some acc
  | r :: rs =>
    match monthKey r.Date with
    | none => none
    | some k => foldTotals (updateTotals acc k r.Amount) rs

/-- The observable outcome of monthly_summary. -/
inductive SummaryResult where
  | noData
  | dateError
  | totals (m : List (String × ℚ))
deriving DecidableEq

/-- monthly_summary: empty ledger prints the No Expenses message and
returns; otherwise group amounts by month key in first-seen order. -/
def monthlySummary (L : Ledger) : SummaryResult :=
  match L with
  | [] => .noData
  | _ =>
    match foldTotals [] L with
    | none => .dateError
    | some m => .totals m

/- ---------- Specification-side functions for the claims ---------- -/

/-- Total amount of the records of a given month key. -/
def monthSum (L : Ledger) (k : String) : ℚ :=
  (L.map (fun r => if monthKey r.Date = some k then r.Amount else 0)).sum

/-- The month keys of a ledger, in stored order. -/
def keyList (L : Ledger) : List String :=
  L.filterMap (fun r => monthKey r.Date)

def dedupFirstAux (seen : List String) : List String → List String
  | [] => []
  | k :: ks => if k ∈ seen then dedupFirstAux seen ks else k :: dedupFirstAux (seen ++ [k]) ks

/-- Distinct elements in order of first occurrence. -/
def dedupFirst (ks : List String) : List String := dedupFirstAux [] ks

/-- Sum of the values stored under a key (the value itself once keys are
known to be distinct). -/
def lookupTotal (m : List (String × ℚ)) (k : String) : ℚ :=
  ((m.filter (fun p => p.1 = k)).map Prod.snd).sum

/- ---------- Concrete data for witnesses and counterexamples ---------- -/

def sampleDate : Date := ⟨12, 10, 2026⟩

def sampleLedger3 : Ledger :=
  [⟨"01-01-2024", "Lunch", "Food", 10⟩,
   ⟨"15-01-2024", "Taxi", "Travel", 5⟩,
   ⟨"02-02-2024", "Milk", "Groceries", 7⟩]

def sampleLedger2 : Ledger :=
  [⟨"01-01-2024", "Lunch", "Food", 10⟩,
   ⟨"15-01-2024", "Taxi", "Travel", 5⟩]

/-- A record violating every part of the ledger invariant. -/
def badRecord : ExpenseRecord := ⟨"99-99-9999", "", "", -3⟩

/- ---------- Helper lemmas: the interactive prompts ---------- -/

theorem askFieldAgain_spec : ∀ (inputs : List String) (v : String) (rest : List String),
    askFieldAgain inputs = some (v, rest) → v ≠ "" ∧ v ∈ inputs := by
  intro inputs
  induction inputs with
  | nil => intro v rest h; simp [askFieldAgain] at h
  | cons s tl ih =>
    intro v rest h
    by_cases hs : s = ""
    · rw [askFieldAgain, if_pos hs] at h
      rcases ih v rest h with ⟨h1, h2⟩
      exact ⟨h1, List.mem_cons_of_mem s h2⟩
    · rw [askFieldAgain, if_neg hs] at h
      rcases h with ⟨rfl, rfl⟩
      exact ⟨hs, List.mem_cons_self s tl⟩

theorem askField_ne_empty : ∀ (inputs : List String) (v : String) (rest : List String),
    askField inputs = some (v, rest) → v ≠ "" := by
  intro inputs v rest h
  cases inputs with
  | nil => simp [askField] at h
  | cons s tl =>
    by_cases hs : pyCapitalize (pyStrip s) = ""
    · rw [askField, if_pos hs] at h
      exact (askFieldAgain_spec tl v rest h).1
    · rw [askField, if_neg hs] at h
      rcases h with ⟨rfl, rfl⟩
      exact hs

theorem askAmount_nonneg : ∀ (inputs : List String) (a : ℚ) (rest : List String),
    askAmount inputs = .ok a rest → 0 ≤ a := by
  intro inputs
  induction inputs with
  | nil => intro a rest h; simp [askAmount] at h
  | cons s tl ih =>
    intro a rest h
    cases hp : pyParseFloat (pyStrip s) with
    | none => simp [askAmount, hp] at h
    | some q =>
      by_cases hq : q < 0
      · simp only [askAmount, hp, if_pos hq] at h
        exact ih a rest h
      · simp only [askAmount, hp, if_neg hq] at h
        rcases h with ⟨rfl, rfl⟩
        exact le_of_not_lt hq

theorem addIteration_appended : ∀ (today : Date) (inputs : List String) (r : ExpenseRecord)
    (rest : List String), addIteration today inputs = .appended r rest →
    0 ≤ r.Amount ∧ r.Description ≠ "" ∧ r.Category ≠ "" ∧ r.Date = formatDate today := by
  intro today inputs r rest h
  unfold addIteration at h
  split at h
  · cases h
  · rename_i desc rest1 h1
    split at h
    · cases h
    · rename_i cat rest2 h2
      split at h
      · cases h
      · cases h
      · rename_i a rest3 h3
        cases h
        exact ⟨askAmount_nonneg rest2 a rest h3,
               askField_ne_empty inputs desc rest1 h1,
               askField_ne_empty rest1 cat rest2 h2, rfl⟩

/- ---------- Helper lemmas: the add and remove loops ---------- -/

theorem addLoop_mem : ∀ (fuel : Nat) (today : Date) (L : Ledger) (inputs : List String)
    (r : ExpenseRecord), r ∈ addLoop fuel today L inputs →
    r ∈ L ∨ (0 ≤ r.Amount ∧ r.Description ≠ "" ∧ r.Category ≠ "" ∧ r.Date = formatDate today) := by
  intro fuel
  induction fuel with
  | zero => intro today L inputs r h; exact Or.inl h
  | succ f ih =>
    intro today L inputs r h
    rw [addLoop] at h
    split at h
    · exact Or.inl h
    · rename_i rest hit
      exact ih today L rest r h
    · rename_i r0 rest hit
      have hr0 := addIteration_appended today inputs r0 rest hit
      split at h
      · rcases List.mem_append.1 h with hm | hm
        · exact Or.inl hm
        · rw [List.mem_singleton.1 hm]; exact Or.inr hr0
      · rename_i ans rest2 ha
        split at h
        · rcases ih today (L ++ [r0]) rest2 r h with hm | hp
          · rcases List.mem_append.1 hm with hm2 | hm2
            · exact Or.inl hm2
            · rw [List.mem_singleton.1 hm2]; exact Or.inr hr0
          · exact Or.inr hp
        · rcases List.mem_append.1 h with hm | hm
          · exact Or.inl hm
          · rw [List.mem_singleton.1 hm]; exact Or.inr hr0

theorem addLoop_suffix : ∀ (fuel : Nat) (today : Date) (L : Ledger) (inputs : List String),
    ∃ t, addLoop fuel today L inputs = L ++ t := by
  intro fuel
  induction fuel with
  | zero => intro today L inputs; exact ⟨[], (List.append_nil L).symm⟩
  | succ f ih =>
    intro today L inputs
    rw [addLoop]
    split
    · exact ⟨[], (List.append_nil L).symm⟩
    · rename_i rest hit
      exact ih today L rest
    · rename_i r rest hit
      split
      · exact ⟨[r], rfl⟩
      · rename_i ans rest2 ha
        split
        · obtain ⟨t, ht⟩ := ih today (L ++ [r]) rest2
          exact ⟨[r] ++ t, by rw [ht, List.append_assoc]⟩
        · exact ⟨[r], rfl⟩

theorem removeAt_subset : ∀ (L : Ledger) (pos : Int) (L2 : Ledger),
    removeAt L pos = some L2 → L2 ⊆ L := by
  intro L pos L2 h
  unfold removeAt at h
  split at h
  · cases h
  · cases h
    exact List.eraseIdx_subset L _

theorem removeLoop_subset : ∀ (fuel : Nat) (L : Ledger) (inputs : List String)
    (r : ExpenseRecord), r ∈ removeLoop fuel L inputs → r ∈ L := by
  intro fuel
  induction fuel with
  | zero => intro L inputs r h; exact h
  | succ f ih =>
    intro L inputs r h
    cases inputs with
    | nil => rw [removeLoop] at h; exact h
    | cons s rest =>
      rw [removeLoop] at h
      split at h
      · exact ih L rest r h
      · rename_i pos hp
        split at h
        · exact ih L rest r h
        · rename_i L2 hr
          have hsub := removeAt_subset L pos L2 hr
          split at h
          · exact hsub h
          · rename_i ans rest2 ha
            split at h
            · exact hsub (ih L2 rest2 r h)
            · exact hsub h

/- ---------- Helper lemmas: JSON round trip ---------- -/

theorem decodeRecord_encodeRecord (r : ExpenseRecord) :
    decodeRecord (encodeRecord r) = some r := rfl

theorem decodeRecords_encode : ∀ (L : Ledger),
    decodeRecords (L.map encodeRecord) = some L := by
  intro L
  induction L with
  | nil => rfl
  | cons r rs ih =>
    simp only [List.map_cons, decodeRecords, decodeRecord_encodeRecord, ih]

/- ---------- Helper lemmas: date formatting round trip ---------- -/

theorem digitChar_toNat : ∀ d : Nat, d < 10 → (digitChar d).toNat = 48 + d := by decide

theorem isDigitC_digitChar : ∀ d : Nat, d < 10 → isDigitC (digitChar d) = true := by decide

theorem digitChar_ne_dash : ∀ d : Nat, d < 10 → ¬ digitChar d = '-' := by decide

theorem digitsToNat_twoDigits (n : Nat) (h : n < 100) : digitsToNat (twoDigitsL n) = n := by
  have h1 : n / 10 < 10 := by omega
  have h2 : n % 10 < 10 := by omega
  simp only [twoDigitsL, digitsToNat, List.foldl_cons, List.foldl_nil]
  rw [digitChar_toNat _ h1, digitChar_toNat _ h2]
  omega

theorem digitsToNat_fourDigits (n : Nat) (h : n < 10000) : digitsToNat (fourDigitsL n) = n := by
  have h1 : n / 1000 < 10 := by omega
  have h2 : n / 100 % 10 < 10 := by omega
  have h3 : n / 10 % 10 < 10 := by omega
  have h4 : n % 10 < 10 := by omega
  simp only [fourDigitsL, digitsToNat, List.foldl_cons, List.foldl_nil]
  rw [digitChar_toNat _ h1, digitChar_toNat _ h2, digitChar_toNat _ h3, digitChar_toNat _ h4]
  omega

theorem twoDigitsL_all_digit (n : Nat) (h : n < 100) : (twoDigitsL n).all isDigitC = true := by
  simp only [twoDigitsL, List.all_cons, List.all_nil, Bool.and_true]
  rw [isDigitC_digitChar _ (by omega : n / 10 < 10), isDigitC_digitChar _ (by omega : n % 10 < 10)]
  rfl

theorem fourDigitsL_all_digit (n : Nat) (h : n < 10000) : (fourDigitsL n).all isDigitC = true := by
  simp only [fourDigitsL, List.all_cons, List.all_nil, Bool.and_true]
  rw [isDigitC_digitChar _ (by omega : n / 1000 < 10),
      isDigitC_digitChar _ (by omega : n / 100 % 10 < 10),
      isDigitC_digitChar _ (by omega : n / 10 % 10 < 10),
      isDigitC_digitChar _ (by omega : n % 10 < 10)]
  rfl

theorem twoDigitsL_no_dash (n : Nat) (h : n < 100) : ∀ c ∈ twoDigitsL n, ¬ c = '-' := by
  intro c hc
  simp only [twoDigitsL, List.mem_cons, List.not_mem_nil, or_false] at hc
  rcases hc with rfl | rfl
  · exact digitChar_ne_dash _ (by omega)
  · exact digitChar_ne_dash _ (by omega)

theorem splitOnChar_not_mem (sep : Char) : ∀ (xs : List Char), (∀ c ∈ xs, ¬ c = sep) →
    splitOnChar sep xs = [xs] := by
  intro xs
  induction xs with
  | nil => intro _; rfl
  | cons c cs ih =>
    intro h
    have hc : ¬ c = sep := h c (List.mem_cons_self c cs)
    rw [splitOnChar, if_neg hc, ih (fun d hd => h d (List.mem_cons_of_mem c hd))]

theorem splitOnChar_append (sep : Char) : ∀ (xs rest : List Char), (∀ c ∈ xs, ¬ c = sep) →
    splitOnChar sep (xs ++ sep :: rest) = xs :: splitOnChar sep rest := by
  intro xs
  induction xs with
  | nil =>
    intro rest _
    rw [List.nil_append, splitOnChar, if_pos rfl]
  | cons c cs ih =>
    intro rest h
    have hc : ¬ c = sep := h c (List.mem_cons_self c cs)
    have ihr := ih rest (fun d hd => h d (List.mem_cons_of_mem c hd))
    rw [List.cons_append, splitOnChar, if_neg hc, ihr]

theorem parseNumField_twoDigits (n hi : Nat) (h1 : 1 ≤ n) (h2 : n ≤ hi) (h3 : hi ≤ 99) :
    parseNumField (twoDigitsL n) hi = some n := by
  unfold parseNumField
  rw [if_pos ⟨twoDigitsL_all_digit n (by omega), Or.inr rfl⟩,
      digitsToNat_twoDigits n (by omega), if_pos ⟨h1, h2⟩]

theorem parseYearField_fourDigits (y : Nat) (h1 : 1 ≤ y) (h2 : y ≤ 9999) :
    parseYearField (fourDigitsL y) = some y := by
  unfold parseYearField
  rw [if_pos ⟨fourDigitsL_all_digit y (by omega), rfl⟩,
      digitsToNat_fourDigits y (by omega), if_pos h1]

theorem daysInMonth_le (m y : Nat) : daysInMonth m y ≤ 31 := by
  unfold daysInMonth
  split
  · split <;> omega
  · split <;> omega

theorem parseDate_formatDate (dt : Date) (h : validDate dt = true) :
    parseDate (formatDate dt) = some dt := by
  obtain ⟨d, m, y⟩ := dt
  simp only [validDate, decide_eq_true_eq] at h
  obtain ⟨hm1, hm2, hd1, hd2, hy1, hy2⟩ := h
  have hd31 : d ≤ 31 := le_trans hd2 (daysInMonth_le m y)
  have hsplit : splitOnChar '-' (formatDate ⟨d, m, y⟩).data =
      [twoDigitsL d, twoDigitsL m, fourDigitsL y] := by
    show splitOnChar '-' (twoDigitsL d ++ '-' :: (twoDigitsL m ++ '-' :: fourDigitsL y)) = _
    rw [splitOnChar_append '-' (twoDigitsL d) _ (twoDigitsL_no_dash d (by omega)),
        splitOnChar_append '-' (twoDigitsL m) _ (twoDigitsL_no_dash m (by omega)),
        splitOnChar_not_mem '-' (fourDigitsL y) ?_]
    intro c hc
    simp only [fourDigitsL, List.mem_cons, List.not_mem_nil, or_false] at hc
    rcases hc with rfl | rfl | rfl | rfl
    · exact digitChar_ne_dash _ (by omega)
    · exact digitChar_ne_dash _ (by omega)
    · exact digitChar_ne_dash _ (by omega)
    · exact digitChar_ne_dash _ (by omega)
  unfold parseDate
  simp only [hsplit]
  rw [parseNumField_twoDigits d 31 hd1 hd31 (by omega),
      parseNumField_twoDigits m 12 hm1 hm2 (by omega),
      parseYearField_fourDigits y (by omega) hy2]
  simp [hd2]

theorem monthKey_formatDate (dt : Date) (h : validDate dt = true) :
    (monthKey (formatDate dt)).isSome = true := by
  unfold monthKey
  rw [parseDate_formatDate dt h]
  rfl

/- ---------- Helper lemmas: monthly grouping ---------- -/

theorem lookupTotal_cons (x : String) (y : ℚ) (rest : List (String × ℚ)) (k : String) :
    lookupTotal ((x, y) :: rest) k = (if x = k then y else 0) + lookupTotal rest k := by
  by_cases h : x = k
  · simp [lookupTotal, h]
  · simp [lookupTotal, h]

theorem updateTotals_keys_mem : ∀ (acc : List (String × ℚ)) (k : String) (a : ℚ),
    k ∈ acc.map Prod.fst → (updateTotals acc k a).map Prod.fst = acc.map Prod.fst := by
  intro acc
  induction acc with
  | nil => intro k a h; simp at h
  | cons p rest ih =>
    intro k a h
    obtain ⟨k2, v⟩ := p
    by_cases hk : k2 = k
    · rw [updateTotals, if_pos hk]
      simp
    · rw [updateTotals, if_neg hk]
      simp only [List.map_cons, List.mem_cons] at h ⊢
      rcases h with h | h
      · exact absurd h.symm hk
      · rw [ih k a h]

theorem updateTotals_keys_not_mem : ∀ (acc : List (String × ℚ)) (k : String) (a : ℚ),
    k ∉ acc.map Prod.fst →
    (updateTotals acc k a).map Prod.fst = acc.map Prod.fst ++ [k] := by
  intro acc
  induction acc with
  | nil => intro k a _; rfl
  | cons p rest ih =>
    intro k a h
    obtain ⟨k2, v⟩ := p
    simp only [List.map_cons, List.mem_cons] at h
    push_neg at h
    obtain ⟨h1, h2⟩ := h
    rw [updateTotals, if_neg (fun hk => h1 hk.symm)]
    simp only [List.map_cons, List.cons_append, List.cons.injEq, true_and]
    exact ih k a h2

theorem lookupTotal_update : ∀ (acc : List (String × ℚ)) (k : String) (a : ℚ) (k2 : String),
    lookupTotal (updateTotals acc k a) k2 = lookupTotal acc k2 + (if k2 = k then a else 0) := by
  intro acc
  induction acc with
  | nil =>
    intro k a k2
    rw [updateTotals, lookupTotal_cons]
    by_cases h : k = k2
    · subst h; simp [lookupTotal]
    · rw [if_neg h, if_neg (fun hk => h hk.symm)]
      simp [lookupTotal]
  | cons p rest ih =>
    intro k a k2
    obtain ⟨k3, v⟩ := p
    by_cases hk : k3 = k
    · subst hk
      rw [updateTotals, if_pos rfl, lookupTotal_cons, lookupTotal_cons]
      by_cases h2 : k3 = k2
      · subst h2
        rw [if_pos rfl, if_pos rfl, if_pos rfl]
        ring
      · rw [if_neg h2, if_neg h2, if_neg (fun hk => h2 hk.symm)]
        ring
    · rw [updateTotals, if_neg hk, lookupTotal_cons, lookupTotal_cons, ih k a k2]
      ring

theorem lookupTotal_not_mem : ∀ (m : List (String × ℚ)) (k : String),
    k ∉ m.map Prod.fst → lookupTotal m k = 0 := by
  intro m
  induction m with
  | nil => intro k _; rfl
  | cons p rest ih =>
    intro k h
    obtain ⟨x, y⟩ := p
    simp only [List.map_cons, List.mem_cons] at h
    push_neg at h
    obtain ⟨h1, h2⟩ := h
    rw [lookupTotal_cons, if_neg (fun hx => h1 hx.symm), ih k h2, zero_add]

theorem nodup_lookupTotal : ∀ (m : List (String × ℚ)), (m.map Prod.fst).Nodup →
    ∀ p ∈ m, p.2 = lookupTotal m p.1 := by
  intro m
  induction m with
  | nil => intro _ p hp; simp at hp
  | cons q rest ih =>
    intro hnd p hp
    obtain ⟨x, y⟩ := q
    simp only [List.map_cons, List.nodup_cons] at hnd
    obtain ⟨hx, hrest⟩ := hnd
    rcases List.mem_cons.1 hp with rfl | hp2
    · rw [lookupTotal_cons, if_pos rfl, lookupTotal_not_mem rest x hx, add_zero]
    · have hne : ¬ x = p.1 := by
        intro hx2
        exact hx (hx2 ▸ List.mem_map_of_mem Prod.fst hp2)
      rw [lookupTotal_cons, if_neg hne, ih hrest p hp2, zero_add]

theorem dedupFirstAux_nodup : ∀ (ks seen : List String), seen.Nodup →
    (seen ++ dedupFirstAux seen ks).Nodup := by
  intro ks
  induction ks with
  | nil => intro seen h; simpa [dedupFirstAux] using h
  | cons k ks2 ih =>
    intro seen h
    by_cases hk : k ∈ seen
    · rw [dedupFirstAux, if_pos hk]
      exact ih seen h
    · rw [dedupFirstAux, if_neg hk]
      have h2 : (seen ++ [k]).Nodup := by
        simp [List.nodup_append, h, hk]
      have := ih (seen ++ [k]) h2
      simpa [List.append_assoc] using this

theorem foldTotals_spec : ∀ (L : Ledger) (acc : List (String × ℚ)),
    (∀ r ∈ L, (monthKey r.Date).isSome = true) →
    ∃ m, foldTotals acc L = some m ∧
      m.map Prod.fst = acc.map Prod.fst ++ dedupFirstAux (acc.map Prod.fst) (keyList L) ∧
      ∀ k, lookupTotal m k = lookupTotal acc k + monthSum L k := by
  intro L
  induction L with
  | nil =>
    intro acc _
    refine ⟨acc, rfl, by simp [keyList, dedupFirstAux], ?_⟩
    intro k
    simp [monthSum]
  | cons r rs ih =>
    intro acc h
    have hr : (monthKey r.Date).isSome = true := h r (List.mem_cons_self r rs)
    cases hk : monthKey r.Date with
    | none => rw [hk] at hr; simp at hr
    | some k0 =>
      have hrs : ∀ x ∈ rs, (monthKey x.Date).isSome = true :=
        fun x hx => h x (List.mem_cons_of_mem r hx)
      obtain ⟨m, hm, hkeys, hvals⟩ := ih (updateTotals acc k0 r.Amount) hrs
      have hkey : keyList (r :: rs) = k0 :: keyList rs := by
        simp [keyList, List.filterMap_cons, hk]
      refine ⟨m, ?_, ?_, ?_⟩
      · rw [foldTotals, hk]
        exact hm
      · rw [hkeys, hkey]
        by_cases hmem : k0 ∈ acc.map Prod.fst
        · rw [updateTotals_keys_mem acc k0 _ hmem, dedupFirstAux, if_pos hmem]
        · rw [updateTotals_keys_not_mem acc k0 _ hmem, dedupFirstAux, if_neg hmem]
          simp [List.append_assoc]
      · intro k
        rw [hvals k, lookupTotal_update]
        have hms : monthSum (r :: rs) k =
            (if monthKey r.Date = some k then r.Amount else 0) + monthSum rs k := by
          simp [monthSum]
        rw [hms, hk]
        by_cases hkk : k = k0
        · subst hkk
          simp only [if_pos rfl]
          ring
        · have hne : ¬ (some k0 = some k) := by
            intro hc
            exact hkk (Option.some.inj hc).symm
          rw [if_neg hkk, if_neg hne]
          ring

/- ---------- Bridging lemmas for the invariant ---------- -/

theorem validRecord_iff (r : ExpenseRecord) :
    validRecord r = true ↔
      (0 ≤ r.Amount ∧ r.Description ≠ "" ∧ r.Category ≠ "" ∧
       (parseDate r.Date).isSome = true) := by
  unfold validRecord
  simp [Bool.and_eq_true, decide_eq_true_eq, and_assoc]

theorem wfLedger_iff (L : Ledger) : wfLedger L = true ↔ ∀ r ∈ L, validRecord r = true := by
  unfold wfLedger
  simp [List.all_eq_true]

/- ---------- Claim theorems ---------- -/

/-- C1 counterexample: the claim says the ledger invariant is established
by load, but load performs no validation: a backing file holding a JSON
array with an invalid record (negative amount, empty description and
category, unparseable date) is loaded as-is, so the in-memory ledger then
holds a record violating the invariant. -/
theorem claim_C1_counterexample :
    loadExpenses (FileState.holds (encodeLedger [badRecord])) =
      Except.ok (encodeLedger [badRecord]) ∧
    decodeLedger (encodeLedger [badRecord]) = some [badRecord] ∧
    validRecord badRecord = false :=
  ⟨rfl, rfl, of_decide_eq_true (by with_unfolding_all rfl)⟩

/-- C1 amended: every record of the in-memory ledger satisfies the
invariant (amount nonnegative, non-empty description and category, date
parseable as dd-mm-yyyy) after any add_expense call and any
remove_expense call starting from a well-formed ledger, and save followed
by load reproduces the same well-formed ledger; load alone establishes
the invariant only when the decoded file contents already satisfy it,
because it stores the decoded JSON value unvalidated. -/
theorem claim_C1 (today : Date) (fuel : Nat) (L : Ledger) (inputs : List String)
    (htoday : validDate today = true) (hL : wfLedger L = true) :
    wfLedger (addLoop fuel today L inputs) = true ∧
    (∀ (fuel2 : Nat) (inputs2 : List String),
       wfLedger (removeLoop fuel2 L inputs2) = true) ∧
    loadExpenses (saveExpenses L) = Except.ok (encodeLedger L) ∧
    decodeLedger (encodeLedger L) = some L ∧
    (∀ v, loadExpenses (FileState.holds v) = Except.ok v) := by
  refine ⟨?_, ?_, rfl, ?_, fun _ => rfl⟩
  · rw [wfLedger_iff]
    intro r hr
    rcases addLoop_mem fuel today L inputs r hr with hm | ⟨h1, h2, h3, h4⟩
    · exact (wfLedger_iff L).1 hL r hm
    · rw [validRecord_iff]
      refine ⟨h1, h2, h3, ?_⟩
      rw [h4, parseDate_formatDate today htoday]
      rfl
  · intro fuel2 inputs2
    rw [wfLedger_iff]
    intro r hr
    exact (wfLedger_iff L).1 hL r (removeLoop_subset fuel2 L inputs2 r hr)
  · simp only [encodeLedger, decodeLedger]
    exact decodeRecords_encode L

/-- C1 witness: the amended claim at concrete inputs. -/
theorem claim_C1_witness :
    wfLedger (addLoop 1 sampleDate sampleLedger2 ["tea", "drinks", "3", "no"]) = true ∧
    (∀ (fuel2 : Nat) (inputs2 : List String),
       wfLedger (removeLoop fuel2 sampleLedger2 inputs2) = true) ∧
    loadExpenses (saveExpenses sampleLedger2) = Except.ok (encodeLedger sampleLedger2) ∧
    decodeLedger (encodeLedger sampleLedger2) = some sampleLedger2 ∧
    (∀ v, loadExpenses (FileState.holds v) = Except.ok v) :=
  claim_C1 sampleDate 1 sampleLedger2 ["tea", "drinks", "3", "no"] (by decide)
    (of_decide_eq_true (by with_unfolding_all rfl))

/-- C2: round-trip law: saving a well-formed ledger and loading the file
back yields a value that decodes to exactly the same ledger, same records
in the same order. -/
theorem claim_C2 (L : Ledger) (_h : wfLedger L = true) :
    ∃ v, loadExpenses (saveExpenses L) = Except.ok v ∧ decodeLedger v = some L :=
  ⟨encodeLedger L, rfl, by
    simp only [encodeLedger, decodeLedger]
    exact decodeRecords_encode L⟩

/-- C2 witness: the round trip at a concrete three-record ledger. -/
theorem claim_C2_witness :
    ∃ v, loadExpenses (saveExpenses sampleLedger3) = Except.ok v ∧
      decodeLedger v = some sampleLedger3 :=
  claim_C2 sampleLedger3 (of_decide_eq_true (by with_unfolding_all rfl))

/-- C3: for a non-empty ledger whose dates parse, monthly_summary yields
the totals mapping whose keys are the distinct month keys in order of
first encounter while scanning the ledger in stored order, and whose
value at each key is the sum of the amounts of that month; in particular
the three-record example ledger yields 01-2024 with total 15 and 02-2024
with total 7, in that order. -/
theorem claim_C3 (L : Ledger) (h1 : L ≠ [])
    (h2 : ∀ r ∈ L, (monthKey r.Date).isSome = true) :
    (∃ m, monthlySummary L = SummaryResult.totals m ∧
       m.map Prod.fst = dedupFirst (keyList L) ∧
       ∀ p ∈ m, p.2 = monthSum L p.1) ∧
    monthlySummary sampleLedger3 =
      SummaryResult.totals [("01-2024", 15), ("02-2024", 7)] := by
  constructor
  · obtain ⟨m, hm, hkeys, hvals⟩ := foldTotals_spec L [] h2
    refine ⟨m, ?_, ?_, ?_⟩
    · cases L with
      | nil => exact absurd rfl h1
      | cons r rs => simp only [monthlySummary, hm]
    · simpa [dedupFirst] using hkeys
    · intro p hp
      have hnodup : (m.map Prod.fst).Nodup := by
        rw [hkeys]
        simpa using dedupFirstAux_nodup (keyList L) [] List.nodup_nil
      rw [nodup_lookupTotal m hnodup p hp, hvals p.1]
      simp [lookupTotal]
  · exact of_decide_eq_true (by with_unfolding_all rfl)

/-- C3 witness: the grouping specification at the example ledger. -/
theorem claim_C3_witness :
    ((∃ m, monthlySummary sampleLedger3 = SummaryResult.totals m ∧
        m.map Prod.fst = dedupFirst (keyList sampleLedger3) ∧
        ∀ p ∈ m, p.2 = monthSum sampleLedger3 p.1) ∧
     monthlySummary sampleLedger3 =
       SummaryResult.totals [("01-2024", 15), ("02-2024", 7)]) :=
  claim_C3 sampleLedger3 (by decide) (by decide)

/-- C4 counterexample: a backing file whose contents are valid JSON but
not expense-record data (a bare string) is not recovered to an empty
ledger: load returns the raw value unchanged, refuting the claimed
exactly-when characterisation of the recovery policy. -/
theorem claim_C4_counterexample :
    decodeLedger (Json.jstr "oops") = none ∧
    loadExpenses (FileState.holds (Json.jstr "oops")) = Except.ok (Json.jstr "oops") ∧
    Json.jstr "oops" ≠ Json.jarr [] :=
  ⟨rfl, rfl, fun h => Json.noConfusion h⟩

/-- C4 amended: load returns an empty ledger when the file is missing or
its contents are not decodable as JSON text; syntactically valid JSON is
returned as-is without schema validation, and any other I/O failure
propagates as an error. -/
theorem claim_C4 :
    loadExpenses FileState.missing = Except.ok (Json.jarr []) ∧
    loadExpenses FileState.undecodable = Except.ok (Json.jarr []) ∧
    (∀ v, loadExpenses (FileState.holds v) = Except.ok v) ∧
    loadExpenses FileState.ioError = Except.error () :=
  ⟨rfl, rfl, fun _ => rfl, rfl⟩

/-- C5: remove_expense boundary behaviour on a non-empty ledger of size
n: every 1-based position from 1 to n (in particular 1 and n) succeeds,
removing exactly that record and shifting later records down one place,
leaving n-1 records; positions 0, n+1 and all negatives are rejected,
and a rejected input leaves the ledger unchanged, the loop simply
continuing with the remaining inputs. -/
theorem claim_C5 (L : Ledger) (n : Nat) (hn : L.length = n) (hpos : 0 < n) :
    (∀ p : Int, 1 ≤ p → p ≤ (n : Int) →
       removeAt L p = some (L.take (p.toNat - 1) ++ L.drop p.toNat) ∧
       (L.take (p.toNat - 1) ++ L.drop p.toNat).length = n - 1) ∧
    removeAt L 1 = some (L.take 0 ++ L.drop 1) ∧
    removeAt L (n : Int) = some (L.take (n - 1) ++ L.drop n) ∧
    removeAt L 0 = none ∧
    removeAt L ((n : Int) + 1) = none ∧
    (∀ p : Int, p < 0 → removeAt L p = none) ∧
    (∀ (fuel : Nat) (s : String) (rest : List String) (p : Int),
       pyParseInt (pyStrip s) = some p → (p ≤ 0 ∨ (n : Int) < p) →
       removeLoop (fuel + 1) L (s :: rest) = removeLoop fuel L rest) := by
  have hA : ∀ p : Int, 1 ≤ p → p ≤ (n : Int) →
      removeAt L p = some (L.take (p.toNat - 1) ++ L.drop p.toNat) ∧
      (L.take (p.toNat - 1) ++ L.drop p.toNat).length = n - 1 := by
    intro p h1 h2
    have hcond : ¬ (p ≤ 0 ∨ (L.length : Int) < p) := by
      rw [hn]; omega
    have htn : (p - 1).toNat = p.toNat - 1 := by omega
    have htn2 : p.toNat - 1 + 1 = p.toNat := by omega
    constructor
    · rw [removeAt, if_neg hcond, htn, List.eraseIdx_eq_take_drop_succ, htn2]
    · rw [List.length_append, List.length_take, List.length_drop, hn]
      have : p.toNat ≤ n := by omega
      omega
  refine ⟨hA, ?_, ?_, ?_, ?_, ?_, ?_⟩
  · exact (hA 1 (by omega) (by omega)).1
  · exact (hA (n : Int) (by omega) (by omega)).1
  · rw [removeAt, if_pos (Or.inl (le_refl (0 : Int)))]
  · rw [removeAt, if_pos (Or.inr (show (L.length : Int) < (n : Int) + 1 by rw [hn]; omega))]
  · intro p hp
    rw [removeAt, if_pos (Or.inl (by omega : p ≤ 0))]
  · intro fuel s rest p hp hrange
    have hnone : removeAt L p = none := by
      rw [removeAt, if_pos (show p ≤ 0 ∨ (L.length : Int) < p by rw [hn]; exact hrange)]
    rw [removeLoop]
    simp only [hp, hnone]

/-- C5 witness: the boundary behaviour at a concrete two-record ledger. -/
theorem claim_C5_witness :
    ((∀ p : Int, 1 ≤ p → p ≤ (2 : Int) →
        removeAt sampleLedger2 p =
          some (sampleLedger2.take (p.toNat - 1) ++ sampleLedger2.drop p.toNat) ∧
        (sampleLedger2.take (p.toNat - 1) ++ sampleLedger2.drop p.toNat).length = 2 - 1) ∧
     removeAt sampleLedger2 1 = some (sampleLedger2.take 0 ++ sampleLedger2.drop 1) ∧
     removeAt sampleLedger2 (2 : Int) =
       some (sampleLedger2.take (2 - 1) ++ sampleLedger2.drop 2) ∧
     removeAt sampleLedger2 0 = none ∧
     removeAt sampleLedger2 ((2 : Int) + 1) = none ∧
     (∀ p : Int, p < 0 → removeAt sampleLedger2 p = none) ∧
     (∀ (fuel : Nat) (s : String) (rest : List String) (p : Int),
        pyParseInt (pyStrip s) = some p → (p ≤ 0 ∨ (2 : Int) < p) →
        removeLoop (fuel + 1) sampleLedger2 (s :: rest) =
          removeLoop fuel sampleLedger2 rest)) :=
  claim_C5 sampleLedger2 2 rfl (by decide)

/-- C6 counterexample: with inputs whose first description entry is
empty, the re-asked description is stored verbatim: the text developed
from the second entry stays " x" in the stored record although its
stripped-and-capitalized normalization is "X", refuting normalization on
the re-ask path. -/
theorem claim_C6_counterexample :
    addLoop 1 sampleDate [] ["", " x", "Food", "5", "no"] =
      [⟨"12-10-2026", " x", "Food", 5⟩] ∧
    pyCapitalize (pyStrip " x") = "X" ∧
    (" x" : String) ≠ "X" :=
  ⟨of_decide_eq_true (by with_unfolding_all rfl), by decide, by decide⟩

/-- C6 amended: on the first prompt the stored description and category
are the stripped-and-capitalized input text; when the first entry
normalizes to empty, the re-ask loop stores a later input verbatim,
without stripping or capitalizing; on every path the stored description
and category are non-empty strings. -/
theorem claim_C6 :
    (∀ (s : String) (rest : List String), pyCapitalize (pyStrip s) ≠ "" →
       askField (s :: rest) = some (pyCapitalize (pyStrip s), rest)) ∧
    (∀ (s : String) (rest : List String), pyCapitalize (pyStrip s) = "" →
       askField (s :: rest) = askFieldAgain rest) ∧
    (∀ (inputs : List String) (v : String) (rest : List String),
       askFieldAgain inputs = some (v, rest) → v ≠ "" ∧ v ∈ inputs) ∧
    (∀ (today : Date) (inputs : List String) (r : ExpenseRecord) (rest : List String),
       addIteration today inputs = IterResult.appended r rest →
       r.Description ≠ "" ∧ r.Category ≠ "") := by
  refine ⟨?_, ?_, askFieldAgain_spec, ?_⟩
  · intro s rest h
    rw [askField, if_neg h]
  · intro s rest h
    rw [askField, if_pos h]
  · intro today inputs r rest h
    have hprops := addIteration_appended today inputs r rest h
    exact ⟨hprops.2.1, hprops.2.2.1⟩

/-- C6 witness: the amended per-path behaviour at concrete inputs. -/
theorem claim_C6_witness :
    askField [" lunch ", "x"] = some (pyCapitalize (pyStrip " lunch "), ["x"]) ∧
    askField ["", "raw", "x"] = askFieldAgain ["raw", "x"] ∧
    (("raw" : String) ≠ "" ∧ ("raw" : String) ∈ ["raw", "x"]) ∧
    ((⟨"12-10-2026", " x", "Food", 5⟩ : ExpenseRecord).Description ≠ "" ∧
     (⟨"12-10-2026", " x", "Food", 5⟩ : ExpenseRecord).Category ≠ "") :=
  ⟨claim_C6.1 " lunch " ["x"] (by decide),
   claim_C6.2.1 "" ["raw", "x"] (by decide),
   claim_C6.2.2.1 ["raw", "x"] "raw" ["x"] (by decide),
   claim_C6.2.2.2 sampleDate ["", " x", "Food", "5", "no"]
     ⟨"12-10-2026", " x", "Food", 5⟩ ["no"] (of_decide_eq_true (by with_unfolding_all rfl))⟩

/-- C7: the amount loop accepts only nonnegative values, every record
added by add_expense to the ledger has nonnegative amount (records
already present aside), and a non-numeric amount aborts the iteration
before any record is constructed, the ledger passing unchanged to the
restarted loop. -/
theorem claim_C7 :
    (∀ (inputs : List String) (a : ℚ) (rest : List String),
       askAmount inputs = AmountResult.ok a rest → 0 ≤ a) ∧
    (∀ (fuel : Nat) (today : Date) (L : Ledger) (inputs : List String) (r : ExpenseRecord),
       r ∈ addLoop fuel today L inputs → r ∈ L ∨ 0 ≤ r.Amount) ∧
    (∀ (fuel : Nat) (today : Date) (L : Ledger) (inputs rest : List String),
       addIteration today inputs = IterResult.invalid rest →
       addLoop (fuel + 1) today L inputs = addLoop fuel today L rest) := by
  refine ⟨askAmount_nonneg, ?_, ?_⟩
  · intro fuel today L inputs r h
    rcases addLoop_mem fuel today L inputs r h with hm | hp
    · exact Or.inl hm
    · exact Or.inr hp.1
  · intro fuel today L inputs rest h
    rw [addLoop]
    simp only [h]

/-- C7 witness: the amount validation at concrete inputs. -/
theorem claim_C7_witness :
    (0 ≤ (5 : ℚ)) ∧
    ((⟨"12-10-2026", "A", "B", 3⟩ : ExpenseRecord) ∈ ([] : Ledger) ∨
      0 ≤ ((⟨"12-10-2026", "A", "B", 3⟩ : ExpenseRecord)).Amount) ∧
    addLoop 1 sampleDate [] ["a", "b", "x"] = addLoop 0 sampleDate [] [] :=
  ⟨claim_C7.1 ["-2", "5"] 5 [] (of_decide_eq_true (by with_unfolding_all rfl)),
   claim_C7.2.1 1 sampleDate [] ["a", "b", "3", "no"] ⟨"12-10-2026", "A", "B", 3⟩
     (of_decide_eq_true (by with_unfolding_all rfl)),
   claim_C7.2.2 0 sampleDate [] ["a", "b", "x"] [] (by decide)⟩

/-- C8: the empty ledger yields the explicit no-data outcome of
monthly_summary, distinct from a successful result carrying an empty
mapping. -/
theorem claim_C8 :
    monthlySummary [] = SummaryResult.noData ∧
    SummaryResult.noData ≠ SummaryResult.totals [] :=
  ⟨rfl, fun h => SummaryResult.noConfusion h⟩

/-- C9: append frame condition: every ledger the add loop returns extends
the original ledger as a prefix (existing records keep their values and
relative positions, new records go to the end), and a single accepted
expense followed by the answer no returns exactly the old ledger with the
one new record appended. -/
theorem claim_C9 :
    (∀ (fuel : Nat) (today : Date) (L : Ledger) (inputs : List String),
       ∃ t, addLoop fuel today L inputs = L ++ t) ∧
    (∀ (fuel : Nat) (today : Date) (L : Ledger) (inputs : List String)
       (r : ExpenseRecord) (rest : List String) (ans : String) (rest2 : List String),
       addIteration today inputs = IterResult.appended r rest →
       askAgain rest = some (ans, rest2) → ans ≠ "yes" →
       addLoop (fuel + 1) today L inputs = L ++ [r]) := by
  refine ⟨addLoop_suffix, ?_⟩
  intro fuel today L inputs r rest ans rest2 h1 h2 h3
  rw [addLoop]
  simp only [h1, h2, if_neg h3]

/-- C9 witness: one accepted expense at concrete inputs appends exactly
one record at the end of the ledger. -/
theorem claim_C9_witness :
    addLoop 1 sampleDate sampleLedger2 ["tea", "drinks", "3", "no"] =
      sampleLedger2 ++ [⟨"12-10-2026", "Tea", "Drinks", 3⟩] :=
  claim_C9.2 0 sampleDate sampleLedger2 ["tea", "drinks", "3", "no"]
    ⟨"12-10-2026", "Tea", "Drinks", 3⟩ ["no"] "no" []
    (of_decide_eq_true (by with_unfolding_all rfl)) (by decide) (by decide)

/-- C10: on the empty ledger every integer position is rejected by the
range check, so no removal ever succeeds and the remove loop leaves the
ledger empty for every fuel and input stream. -/
theorem claim_C10 :
    (∀ p : Int, removeAt [] p = none) ∧
    (∀ (fuel : Nat) (inputs : List String), removeLoop fuel [] inputs = []) := by
  have hnone : ∀ p : Int, removeAt [] p = none := by
    intro p
    have hcond : p ≤ 0 ∨ ((([] : Ledger).length : Int) < p) := by
      simp only [List.length_nil, Nat.cast_zero]
      omega
    rw [removeAt, if_pos hcond]
  refine ⟨hnone, ?_⟩
  intro fuel
  induction fuel with
  | zero => intro inputs; rfl
  | succ f ih =>
    intro inputs
    cases inputs with
    | nil => rfl
    | cons s rest =>
      rw [removeLoop]
      cases hp : pyParseInt (pyStrip s) with
      | none => simp only [hp]; exact ih rest
      | some pos => simp only [hp, hnone pos]; exact ih rest

end ExpenseTracker
